import Mathlib

/-!
Shallow embedding of `scripts/validate_rules.py`, the data-quality asset
validator of the nexusdata repository, together with proofs of the spec's
claims about it.

Python values parsed from JSON/YAML documents are modelled by `JValue`;
the filesystem seen by the script is modelled by `FileSystem` (directories
and regular files, identified by their path strings); the pieces of the
script that call into external libraries (`jsonschema`'s compiled
validator, the JSON/YAML parsers) are abstracted as function-valued
fields of a `World` record.  Python exceptions are modelled by `Option` /
`Except`: a `none` result of an embedded function corresponds to an
uncaught exception at that point of the source.  Python's `sorted`, whose
comparisons on mixed-type keys raise `TypeError`, is embedded with a
partial comparator (`Option Bool`) so that the possibility of raising is
visible in the model.
-/

namespace NexusData

/-- A mapping key as `yaml.safe_load` can produce it: JSON documents
yield string keys only, but YAML mappings may be keyed by ints, bools or
None as well. -/
inductive JKey where
  | kstr  : String → JKey
  | kint  : Int → JKey
  | kbool : Bool → JKey
  | knull : JKey

/-- A parsed document value: Python dict / list / str / int / bool / None. -/
inductive JValue where
  | obj  : List (JKey × JValue) → JValue
  | arr  : List JValue → JValue
  | str  : String → JValue
  | int  : Int → JValue
  | bool : Bool → JValue
  | null : JValue

/-- Python's `type(v).__name__` for the modelled values. -/
def JValue.typeName : JValue → String
  | .obj _  => "dict"
  | .arr _  => "list"
  | .str _  => "str"
  | .int _  => "int"
  | .bool _ => "bool"
  | .null   => "NoneType"

/-- `isinstance(v, dict)`. -/
def JValue.isObj : JValue → Bool
  | .obj _ => true
  | _ => false

/-- `isinstance(v, dict) or isinstance(v, list)`. -/
def JValue.isObjOrArr : JValue → Bool
  | .obj _ => true
  | .arr _ => true
  | _ => false

/-- Python `d.get(k)` with a string key `k`, on a dict modelled as an
association list (parsed documents have distinct keys, so first match
suffices; a string compares equal only to an equal string). -/
def dictGet (kvs : List (JKey × JValue)) (k : String) : Option JValue :=
  (kvs.find? (fun kv =>
    match kv.1 with
    | .kstr s => s == k
    | _ => false)).map (fun kv => kv.2)

/-- One token of a `jsonschema` error's `absolute_path`: the Python
object used to index the instance — a dict key of any key type, or an
int list index (Python does not distinguish int keys from indices). -/
inductive PathToken where
  | str  : String → PathToken
  | int  : Int → PathToken
  | bool : Bool → PathToken
  | null : PathToken

/-- The path token a dict key contributes to an error's path. -/
def tokenOfKey : JKey → PathToken
  | .kstr s => .str s
  | .kint i => .int i
  | .kbool b => .bool b
  | .knull => .null

/-- The text a path token contributes to a pointer (`f"/{token}"` body,
using Python's `str()` rendering). -/
def tokenStr : PathToken → String
  | .str s => s
  | .int i => toString i
  | .bool b => if b then "True" else "False"
  | .null => "None"

/-- `pointer_from_path` (validate_rules.py:84-88): start from `"$"` and
append `"/" + token` for each token, via a left fold as in the source. -/
def pointer_from_path (path_tokens : List PathToken) : String :=
  path_tokens.foldl (fun pointer token => pointer ++ "/" ++ tokenStr token) "$"

/-! ### Python comparison and sorting

Python's `sorted(..., key=lambda err: list(err.absolute_path))` compares
key lists elementwise: `==` across types is `False` and never raises,
but `<` between an `int` and a `str` raises `TypeError`.  The embedded
comparator therefore returns `Option Bool`, `none` marking the raise. -/

/-- The numeric value of a token under Python's numeric tower, where
`bool` is an `int` subtype (`True == 1`, `False == 0`). -/
def tokNum : PathToken → Option Int
  | .int a => some a
  | .bool b => some (if b then 1 else 0)
  | _ => none

/-- Python `==` on path tokens (never raises; numbers and bools compare
numerically, `None` equals only `None`, everything else is `False`
across types). -/
def pyTokenEq : PathToken → PathToken → Bool
  | .str a, .str b => a == b
  | .null, .null => true
  | a, b =>
    match tokNum a, tokNum b with
    | some x, some y => x == y
    | _, _ => false

/-- Code-point comparison of char lists: Python `str <` restricted to the
first position where the lists differ. -/
def charListLt : List Char → List Char → Bool
  | [], [] => false
  | [], _ :: _ => true
  | _ :: _, [] => false
  | a :: as, b :: bs =>
    if a.toNat = b.toNat then charListLt as bs else decide (a.toNat < b.toNat)

/-- Python `<` on strings (lexicographic by code point). -/
def strLtB (a b : String) : Bool := charListLt a.data b.data

/-- Python `<` on path tokens: strings compare with strings, numbers
(ints and bools) with numbers; every other pair — strings against
numbers, and `None` against anything, itself included — raises
`TypeError` (`none`). -/
def pyTokenLt : PathToken → PathToken → Option Bool
  | .str a, .str b => some (strLtB a b)
  | a, b =>
    match tokNum a, tokNum b with
    | some x, some y => some (decide (x < y))
    | _, _ => none

/-- Python `<` on token lists (list elementwise comparison): scan for the
first non-`==` position and compare there with `<`, which may raise. -/
def pyListLt : List PathToken → List PathToken → Option Bool
  | [], [] => some false
  | [], _ :: _ => some true
  | _ :: _, [] => some false
  | a :: as, b :: bs =>
    if pyTokenEq a b then pyListLt as bs else pyTokenLt a b

/-- Stable insertion with a partial comparator: place `a` before the
first element it compares strictly below, propagating a raise. -/
def insertP (lt : α → α → Option Bool) (a : α) : List α → Option (List α)
  | [] => some [a]
  | b :: bs =>
    match lt a b with
    | none => none
    | some true => some (a :: b :: bs)
    | some false =>
      match insertP lt a bs with
      | none => none
      | some l => some (b :: l)

/-- Stable sort with a partial comparator, inserting left to right. -/
def sortAux (lt : α → α → Option Bool) : List α → List α → Option (List α)
  | acc, [] => some acc
  | acc, a :: rest =>
    match insertP lt a acc with
    | none => none
    | some acc' => sortAux lt acc' rest

/-- Python `sorted` with a partial comparator (`none` = `TypeError`). -/
def pySorted (lt : α → α → Option Bool) (l : List α) : Option (List α) :=
  sortAux lt [] l

/-- One violation produced by a compiled schema validator's
`iter_errors`: its `absolute_path` and its `message`. -/
structure SchemaError where
  path : List PathToken
  message : String

/-- The sort key order used at validate_rules.py:103-104 and :115:
`key=lambda err: list(err.absolute_path)`. -/
def errLt (e1 e2 : SchemaError) : Option Bool := pyListLt e1.path e2.path

/-- The child of a value under one path token, when it exists: dict
lookup is by Python equality on the key objects, list lookup by a
non-negative int index. -/
def childAt : JValue → PathToken → Option JValue
  | .obj kvs, t =>
    (kvs.find? (fun kv => pyTokenEq (tokenOfKey kv.1) t)).map (fun kv => kv.2)
  | .arr items, .int i => if i < 0 then none else items.get? i.toNat
  | _, _ => none

/-- Whether a token sequence denotes a real structural path into `v`
(what `absolute_path` of a compiled validator's error always is). -/
def validPath (v : JValue) : List PathToken → Bool
  | [] => true
  | t :: ts =>
    match childAt v t with
    | some c => validPath c ts
    | none => false

/-- Error line for a violation in element `index` of a list payload
(validate_rules.py:107-109). -/
def listItemLine (file : String) (index : Nat) (e : SchemaError) : String :=
  file ++ "[" ++ toString index ++ "]: " ++ pointer_from_path e.path ++ " " ++ e.message

/-- Error line for a violation in an object payload
(validate_rules.py:117). -/
def objLine (file : String) (e : SchemaError) : String :=
  file ++ ": " ++ pointer_from_path e.path ++ " " ++ e.message

/-- The list branch of `validate_document` (validate_rules.py:96-110):
non-object elements yield one structural error each, object elements are
validated and their violations sorted by path.  The validator itself may
raise while iterated (`V _ = none`), and so may the sort. -/
def validateListItems (V : JValue → Option (List SchemaError)) (file : String) :
    Nat → List JValue → Option (List String)
  | _, [] => some []
  | index, item :: rest =>
    match item with
    | .obj kvs =>
      match V (.obj kvs) with
      | none => none
      | some errs =>
        match pySorted errLt errs with
        | none => none
        | some sortedErrs =>
          match validateListItems V file (index + 1) rest with
          | none => none
          | some restLines => some (sortedErrs.map (listItemLine file index) ++ restLines)
    | other =>
      match validateListItems V file (index + 1) rest with
      | none => none
      | some restLines =>
        some ((file ++ "[" ++ toString index ++ "]: expected object, got "
          ++ other.typeName ++ ".") :: restLines)

/-- `validate_document` (validate_rules.py:91-119), over an abstract
compiled validator `V` (its `iter_errors`, in iteration order; `none` =
the library raised while producing errors, as it does on JSON-parseable
non-schema definitions).  A `none` result marks an uncaught exception:
either the validator's own raise or Python's `sorted` on error paths. -/
def validate_document (V : JValue → Option (List SchemaError)) (payload : JValue)
    (file : String) : Option (List String) :=
  match payload with
  | .arr items => validateListItems V file 0 items
  | .obj kvs =>
    match V (.obj kvs) with
    | none => none
    | some errs =>
      match pySorted errLt errs with
      | none => none
      | some sortedErrs => some (sortedErrs.map (objLine file))
  | other => some [file ++ ": expected object or list, got " ++ other.typeName ++ "."]

mutual

/-- Every mapping of the value is keyed by strings only — true of every
JSON-parsed document, and of YAML documents that use plain string
keys. -/
def strKeyed : JValue → Bool
  | .obj kvs => strKeyedKVs kvs
  | .arr items => strKeyedList items
  | _ => true

/-- All keys of the entries are strings and all values string-keyed. -/
def strKeyedKVs : List (JKey × JValue) → Bool
  | [] => true
  | (JKey.kstr _, v) :: rest => strKeyed v && strKeyedKVs rest
  | _ => false

/-- All elements are string-keyed. -/
def strKeyedList : List JValue → Bool
  | [] => true
  | v :: rest => strKeyed v && strKeyedList rest

end

/-! ### Identifier extraction (Python sets as duplicate-free lists) -/

/-- Python `s.add(x)` on a set modelled as a duplicate-free list in
insertion order. -/
def setInsert (s : List String) (x : String) : List String :=
  if s.contains x then s else s ++ [x]

/-- Python `s.update(t)`. -/
def setUnion (s t : List String) : List String :=
  t.foldl setInsert s

/-- `extract_rule_ids` (validate_rules.py:122-136): the string-valued
`rule_id` of an object payload, or of each object element of a list. -/
def extract_rule_ids : JValue → List String
  | .obj kvs =>
    match dictGet kvs "rule_id" with
    | some (.str s) => [s]
    | _ => []
  | .arr items =>
    items.foldl (fun acc item =>
      match item with
      | .obj kvs =>
        match dictGet kvs "rule_id" with
        | some (.str s) => setInsert acc s
        | _ => acc
      | _ => acc) []
  | _ => []

/-- `extract_referenced_rule_ids` (validate_rules.py:139-157): from an
object payload, the `rule_id` of each object entry of its `rules` list
and each string entry of its `default_rules` list; nothing otherwise. -/
def extract_referenced_rule_ids : JValue → List String
  | .obj kvs =>
    let fromRules :=
      match dictGet kvs "rules" with
      | some (.arr items) =>
        items.foldl (fun acc item =>
          match item with
          | .obj ikvs =>
            match dictGet ikvs "rule_id" with
            | some (.str s) => setInsert acc s
            | _ => acc
          | _ => acc) []
      | _ => []
    match dictGet kvs "default_rules" with
    | some (.arr items) =>
      items.foldl (fun acc item =>
        match item with
        | .str s => setInsert acc s
        | _ => acc) fromRules
    | _ => fromRules
  | _ => []

/-! ### Great Expectations suite shape check -/

/-- What the filesystem yields for the optional suite file: absent, or
present with a JSON parse failure, or present and parsed. -/
inductive SuiteFile where
  | absent
  | unparseable (msg : String)
  | parsed (v : JValue)

/-- Python `str.strip`: drop whitespace from both ends. -/
def pyStrip (s : String) : String :=
  String.mk (((s.data.dropWhile Char.isWhitespace).reverse.dropWhile
    Char.isWhitespace).reverse)

/-- The per-element loop of `validate_ge_suite_shape`
(validate_rules.py:182-189). -/
def suiteItems (path : String) : Nat → List JValue → List String
  | _, [] => []
  | index, item :: rest =>
    match item with
    | .obj kvs =>
      (if (dictGet kvs "expectation_type").isNone then
        [path ++ "[expectations/" ++ toString index ++ "]: missing expectation_type field."]
      else []) ++ suiteItems path (index + 1) rest
    | _ =>
      (path ++ "[expectations/" ++ toString index ++ "]: expected object.")
        :: suiteItems path (index + 1) rest

/-- `validate_ge_suite_shape` (validate_rules.py:160-190). -/
def validate_ge_suite_shape (path : String) (file : SuiteFile) : List String :=
  match file with
  | .absent => []
  | .unparseable msg => [path ++ ": invalid JSON: " ++ msg]
  | .parsed payload =>
    match payload with
    | .obj kvs =>
      let nameErrs :=
        match dictGet kvs "expectation_suite_name" with
        | some (.str s) =>
          if pyStrip s == "" then
            [path ++ ": expectation_suite_name must be a non-empty string."]
          else []
        | _ => [path ++ ": expectation_suite_name must be a non-empty string."]
      let expErrs :=
        match dictGet kvs "expectations" with
        | some (.arr items) => suiteItems path 0 items
        | _ => [path ++ ": expectations must be a list."]
      nameErrs ++ expErrs
    | _ => [path ++ ": expected object at root."]

/-! ### Filesystem model and file discovery -/

/-- The filesystem seen by the run: directory paths and regular-file
paths (each a full path string). -/
structure FileSystem where
  dirs : List String
  files : List String
deriving DecidableEq

/-- Python `Path.exists()`. -/
def pathExists (fs : FileSystem) (p : String) : Bool :=
  fs.dirs.contains p || fs.files.contains p

/-- Python `Path.is_file()`. -/
def isFile (fs : FileSystem) (p : String) : Bool :=
  fs.files.contains p

/-- `p` is a strict descendant of directory `base` (what `rglob("*")`
enumerates). -/
def isUnder (base p : String) : Bool :=
  (base.data ++ ['/']).isPrefixOf p.data

/-- Python `≤` on strings (code-point lexicographic; the order used by
`sorted` on paths). -/
def strLeB (a b : String) : Bool := !(strLtB b a)

/-- Insertion into a `le`-sorted list, keeping existing order on ties. -/
def insertLe (le : α → α → Bool) (a : α) : List α → List α
  | [] => [a]
  | b :: bs => if le a b then a :: b :: bs else b :: insertLe le a bs

/-- Insertion sort by a boolean `le` (total order ⇒ sorted output). -/
def sortLe (le : α → α → Bool) : List α → List α
  | [] => []
  | a :: as => insertLe le a (sortLe le as)

/-- `sorted(base.rglob("*"))` (validate_rules.py:78): every filesystem
entry strictly under `base`, in lexicographic path order. -/
def entriesUnder (fs : FileSystem) (base : String) : List String :=
  sortLe strLeB ((fs.dirs ++ fs.files).filter (fun p => isUnder base p))

/-- The last path component (text after the final `/`). -/
def lastComponent (p : String) : List Char :=
  p.data.foldl (fun acc c => if c = '/' then [] else acc ++ [c]) []

/-- Split a name at its last dot: `some (pre, post)` with
`name = pre ++ "." ++ post` and `post` dot-free, `none` if no dot. -/
def lastDotSplit (name : List Char) : Option (List Char × List Char) :=
  let rev := name.reverse
  if rev.contains '.' then
    some (((rev.dropWhile (fun c => c ≠ '.')).tail).reverse,
      (rev.takeWhile (fun c => c ≠ '.')).reverse)
  else none

/-- Python `Path.suffix`: the extension of the last component including
its dot, `""` when the last dot is absent, leading, or final. -/
def pySuffix (p : String) : String :=
  match lastDotSplit (lastComponent p) with
  | some (pre, post) =>
    if pre.isEmpty || post.isEmpty then "" else String.mk ('.' :: post)
  | none => ""

/-- ASCII lowering of one character (Python `str.lower` on the ASCII
extensions at issue). -/
def charLower (c : Char) : Char :=
  if 'A' ≤ c ∧ c ≤ 'Z' then Char.ofNat (c.toNat + 32) else c

/-- `SUPPORTED_EXTENSIONS` (validate_rules.py:35). -/
def SUPPORTED_EXTENSIONS : List String := [".yaml", ".yml", ".json"]

/-- `file_path.suffix.lower() in SUPPORTED_EXTENSIONS`
(validate_rules.py:79). -/
def hasSupportedExt (p : String) : Bool :=
  SUPPORTED_EXTENSIONS.contains (String.mk ((pySuffix p).data.map charLower))

/-- `find_files` (validate_rules.py:73-81): walk each existing search
path, keep regular files with a supported extension, sorted per path. -/
def find_files (fs : FileSystem) (paths : List String) : List String :=
  paths.foldl (fun files base =>
    if pathExists fs base then
      files ++ (entriesUnder fs base).filter
        (fun p => isFile fs p && hasSupportedExt p)
    else files) []

/-! ### The run (`main`, validate_rules.py:193-289) -/

/-- The CLI flags of the run. -/
structure Flags where
  strict_references : Bool
  verbose : Bool
deriving DecidableEq

/-- `ValidationTarget` (validate_rules.py:38-42). -/
structure ValidationTarget where
  name : String
  schema_path : String
  search_paths : List String
deriving DecidableEq

/-- The world outside the script: the file tree plus the external
libraries it calls.  `loadDoc` is `load_payload` (JSON or YAML parse of a
document, `Except.error` = raised parse exception); `loadJson` is
`json.loads(path.read_text())`; `compile s v` is
`Draft202012Validator(s).iter_errors(v)` fully iterated, in iteration
order, with `none` when the iteration itself raises (as it does when `s`
is JSON-parseable but not a valid schema definition, e.g. an integer). -/
structure World where
  fs : FileSystem
  loadDoc : String → Except String JValue
  loadJson : String → Except String JValue
  compile : JValue → JValue → Option (List SchemaError)

/-- When a compiled schema validator does return violations, they sit at
real structural paths of the instance it validated.  This is the
contract of `jsonschema`'s `iter_errors` that the adapter relies on. -/
def WorldWF (w : World) : Prop :=
  ∀ s v errs e, w.compile s v = some errs → e ∈ errs →
    validPath v e.path = true

/-- No compiled validator of the world raises while iterated: every
schema the world serves is a valid schema definition. -/
def WorldNoRaise (w : World) : Prop :=
  ∀ s v, (w.compile s v).isSome

/-- Every document the world parses uses string mapping keys only (as
all JSON documents and plain-keyed YAML documents do). -/
def WorldDocsStrKeyed (w : World) : Prop :=
  ∀ f v, w.loadDoc f = Except.ok v → strKeyed v = true

/-- The three validation targets (validate_rules.py:197-213), rooted at
the resolved project root. -/
def targets (root : String) : List ValidationTarget :=
  [⟨"rule definitions", root ++ "/schemas/rule-schema.json",
      [root ++ "/rules/core", root ++ "/rules/extensions"]⟩,
    ⟨"dataset configs", root ++ "/schemas/dataset-config-schema.json",
      [root ++ "/rules/datasets"]⟩,
    ⟨"semantic types", root ++ "/schemas/semantic-types-schema.json",
      [root ++ "/rules/semantic_types"]⟩]

/-- `file_path.relative_to(root)` as printed in verbose mode. -/
def relTo (root p : String) : String :=
  String.mk (p.data.drop (root.data.length + 1))

/-- The run-scoped accumulator of `main`: error and warning sequences are
appended to, identifier sets grow monotonically. -/
structure RunState where
  errors : List String
  known : List String
  referenced : List String
  output : List String
deriving DecidableEq

/-- A `print` performed only under `--verbose`. -/
def withVerboseLine (flags : Flags) (line : String) (st : RunState) : RunState :=
  if flags.verbose then { st with output := st.output ++ [line] } else st

/-- `all_errors.extend(es)`. -/
def addError (st : RunState) (es : List String) : RunState :=
  { st with errors := st.errors ++ es }

/-- The identifier-set update for one successfully parsed document
(validate_rules.py:249-252): rule-definition targets feed the known set,
all others the referenced set. -/
def recordDoc (isRule : Bool) (payload : JValue) (st : RunState) : RunState :=
  if isRule then
    { st with known := setUnion st.known (extract_rule_ids payload) }
  else
    { st with referenced :=
        setUnion st.referenced (extract_referenced_rule_ids payload) }

/-- The per-file loop of a target (validate_rules.py:237-252), threading
the run-scoped accumulator.  `none` = an uncaught exception. -/
def processFiles (w : World) (flags : Flags) (root : String) (isRule : Bool)
    (V : JValue → Option (List SchemaError)) : RunState → List String → Option RunState
  | st, [] => some st
  | st, f :: rest =>
    match w.loadDoc f with
    | .error exc =>
      processFiles w flags root isRule V
        (addError (withVerboseLine flags ("  - validating " ++ relTo root f) st)
          [f ++ ": unable to parse document: " ++ exc])
        rest
    | .ok payload =>
      match validate_document V payload f with
      | none => none
      | some docErrs =>
        processFiles w flags root isRule V
          (recordDoc isRule payload
            (addError (withVerboseLine flags ("  - validating " ++ relTo root f) st)
              docErrs))
          rest

/-- One iteration of the target loop (validate_rules.py:220-252): a
missing or unparseable schema contributes one error and skips the
target; otherwise every discovered file is processed. -/
def processTarget (w : World) (flags : Flags) (root : String)
    (st : RunState) (t : ValidationTarget) : Option RunState :=
  if pathExists w.fs t.schema_path = false then
    some { st with errors := st.errors ++ ["Missing schema file: " ++ t.schema_path] }
  else
    match w.loadJson t.schema_path with
    | .error exc =>
      some { st with errors :=
          st.errors ++ ["Unable to parse schema " ++ t.schema_path ++ ": " ++ exc] }
    | .ok schemaPayload =>
      let files := find_files w.fs t.search_paths
      processFiles w flags root (t.name == "rule definitions")
        (w.compile schemaPayload)
        (withVerboseLine flags ("[" ++ t.name ++ "] files: " ++ toString files.length) st)
        files

/-- The target loop. -/
def foldTargets (w : World) (flags : Flags) (root : String) :
    RunState → List ValidationTarget → Option RunState
  | st, [] => some st
  | st, t :: ts =>
    match processTarget w flags root st t with
    | none => none
    | some st' => foldTargets w flags root st' ts

/-- The fixed suite location (validate_rules.py:254-260). -/
def suitePath (root : String) : String :=
  root ++ "/integrations/great_expectations/suites/core_suite.json"

/-- What `validate_ge_suite_shape` finds at the suite path in world `w`. -/
def suiteInput (w : World) (root : String) : SuiteFile :=
  if pathExists w.fs (suitePath root) = false then .absent
  else
    match w.loadJson (suitePath root) with
    | .error e => .unparseable e
    | .ok v => .parsed v

/-- The warning for one missing referenced rule id
(validate_rules.py:266). -/
def missingWarning (id : String) : String :=
  "Referenced rule ID not found in rules/core or rules/extensions: " ++ id

/-- The final value of the run: its accumulated sequences, identifier
sets, exit code and printed lines (one element per `print` call). -/
structure RunResult where
  errors : List String
  warnings : List String
  known : List String
  referenced : List String
  exitCode : Nat
  output : List String
deriving DecidableEq

/-- The tail of `main` (validate_rules.py:254-289): suite check, missing
references, summary, warning and error blocks, exit code. -/
def assemble (w : World) (flags : Flags) (root : String) (st : RunState) : RunResult :=
  let allErrors := st.errors
    ++ validate_ge_suite_shape (suitePath root) (suiteInput w root)
  let missing := sortLe strLeB
    (st.referenced.filter (fun id => st.known.contains id = false))
  let warnings := missing.map missingWarning
  let summary := ["Data Quality asset validation summary",
    "- Known rule IDs: " ++ toString st.known.length,
    "- Referenced rule IDs: " ++ toString st.referenced.length,
    "- Errors: " ++ toString allErrors.length,
    "- Warnings: " ++ toString warnings.length]
  let warnBlock := if warnings ≠ [] then
    "\nWarnings:" :: warnings.map (fun s => "- " ++ s) else []
  let errBlock := if allErrors ≠ [] then
    "\nErrors:" :: allErrors.map (fun s => "- " ++ s) else []
  let exitCode := if allErrors ≠ [] then 1
    else if flags.strict_references = true ∧ warnings ≠ [] then 1 else 0
  { errors := allErrors, warnings := warnings, known := st.known,
    referenced := st.referenced, exitCode := exitCode,
    output := st.output ++ summary ++ warnBlock ++ errBlock
      ++ (if exitCode = 0 then ["\nValidation passed."] else []) }

/-- `main` (validate_rules.py:193-289).  `none` = the run died on an
uncaught exception instead of reaching its summary. -/
def run (w : World) (flags : Flags) (root : String) : Option RunResult :=
  (foldTargets w flags root ⟨[], [], [], []⟩ (targets root)).map
    (assemble w flags root)

/-! ### The errors-only pipeline

`filesErrors`/`targetErrors` recompute exactly the error strings a
target contributes, with no reference to identifier extraction; equating
the run's error sequence with their output shows the reference check
feeds warnings only. -/

/-- The error strings contributed by the per-file loop alone. -/
def filesErrors (w : World) (V : JValue → Option (List SchemaError)) :
    List String → Option (List String)
  | [] => some []
  | f :: rest =>
    match w.loadDoc f with
    | .error exc =>
      (filesErrors w V rest).map
        (fun r => (f ++ ": unable to parse document: " ++ exc) :: r)
    | .ok payload =>
      match validate_document V payload f with
      | none => none
      | some docErrs => (filesErrors w V rest).map (fun r => docErrs ++ r)

/-- The error strings contributed by one target, independent of run
state and of the other targets. -/
def targetErrors (w : World) (t : ValidationTarget) : Option (List String) :=
  if pathExists w.fs t.schema_path = false then
    some ["Missing schema file: " ++ t.schema_path]
  else
    match w.loadJson t.schema_path with
    | .error exc =>
      some ["Unable to parse schema " ++ t.schema_path ++ ": " ++ exc]
    | .ok schemaPayload =>
      filesErrors w (w.compile schemaPayload) (find_files w.fs t.search_paths)

/-- `Option`-valued map over a list, failing if any element fails. -/
def optMapList (f : α → Option β) : List α → Option (List β)
  | [] => some []
  | a :: as =>
    match f a with
    | none => none
    | some b => (optMapList f as).map (fun bs => b :: bs)

/-- The schema file of target `t` is absent, or its content does not
parse as JSON: the target-fatal condition of validate_rules.py:220-229. -/
def badSchema (w : World) (t : ValidationTarget) : Prop :=
  pathExists w.fs t.schema_path = false ∨
    ∃ e, w.loadJson t.schema_path = Except.error e

/-- The single error attributed to a target whose schema is missing or
unparseable. -/
def schemaFailMsg (w : World) (t : ValidationTarget) : String :=
  if pathExists w.fs t.schema_path = false then
    "Missing schema file: " ++ t.schema_path
  else
    match w.loadJson t.schema_path with
    | .error e => "Unable to parse schema " ++ t.schema_path ++ ": " ++ e
    | .ok _ => ""

/-! ## Helper lemmas -/

/-- The pointer text after the sentinel, as the spec describes it: one
`"/" + token` segment per token, in order. -/
def pointerTail : List PathToken → String
  | [] => ""
  | t :: ts => "/" ++ tokenStr t ++ pointerTail ts

lemma pointer_foldl (init : String) (ts : List PathToken) :
    ts.foldl (fun pointer token => pointer ++ "/" ++ tokenStr token) init
      = init ++ pointerTail ts := by
  induction ts generalizing init with
  | nil => simp [pointerTail]
  | cons t ts ih =>
    rw [List.foldl_cons, ih]
    simp [pointerTail, String.append_assoc]

/-! ## C10 -/

/-- C10: `pointer_from_path` applied to the empty token sequence returns
exactly `"$"`, and in general the result is `"$"` followed by one
`"/" + token` segment per token in order. -/
theorem C10_pointer_shape :
    pointer_from_path [] = "$" ∧
      ∀ ts, pointer_from_path ts = "$" ++ pointerTail ts := by
  refine ⟨rfl, fun ts => ?_⟩
  simpa [pointer_from_path] using pointer_foldl "$" ts

/-! ## C6 -/

/-- C6: for a payload whose root is neither an object nor a list,
`validate_document` returns exactly the single structural error naming
the observed type, regardless of the validator: no schema validation is
attempted. -/
theorem C6_scalar_root (V : JValue → Option (List SchemaError)) (payload : JValue)
    (file : String) (h : payload.isObjOrArr = false) :
    validate_document V payload file =
      some [file ++ ": expected object or list, got " ++ payload.typeName ++ "."] := by
  cases payload <;> simp [JValue.isObjOrArr] at h <;> rfl

/-- C6 witness: a bare string root yields exactly the one structural
error and no schema violations, even under a violation-reporting
validator. -/
theorem C6_witness :
    (JValue.str "bare").isObjOrArr = false ∧
      validate_document (fun _ => some [⟨[PathToken.str "a"], "boom"⟩])
          (JValue.str "bare") "F"
        = some ["F: expected object or list, got str."] :=
  ⟨by decide, C6_scalar_root (fun _ => some [⟨[PathToken.str "a"], "boom"⟩])
    (JValue.str "bare") "F" (by decide)⟩

/-! ## C7 -/

/-- The expectation-suite payload of the claim:
an object with suite name "s" and one empty expectation object. -/
def suitePayloadC7 : JValue :=
  .obj [(JKey.kstr "expectation_suite_name", JValue.str "s"),
    (JKey.kstr "expectations", JValue.arr [JValue.obj []])]

/-- C7: on the suite payload with one empty expectation object, the
suite-shape checker returns exactly one error, referencing
`expectations/0` and the missing `expectation_type` field; on an absent
suite file it returns no errors. -/
theorem C7_suite_shape :
    (∀ path, validate_ge_suite_shape path (.parsed suitePayloadC7)
        = [path ++ "[expectations/0]: missing expectation_type field."]) ∧
      ∀ path, validate_ge_suite_shape path .absent = [] := by
  refine ⟨fun path => ?_, fun path => rfl⟩
  show [path ++ "[expectations/" ++ toString 0 ++ "]: missing expectation_type field."]
    = [path ++ "[expectations/0]: missing expectation_type field."]
  simp only [String.append_assoc]
  rfl

/-! ## C9 -/

/-- C9: `extract_referenced_rule_ids` of any payload that is not an
object is the empty set; in particular list-rooted documents contribute
no referenced identifiers. -/
theorem C9_nonobject_extracts_nothing (payload : JValue)
    (h : payload.isObj = false) :
    extract_referenced_rule_ids payload = [] := by
  cases payload <;> first
    | rfl
    | simp [JValue.isObj] at h

/-- C9 witness: a list of objects each carrying a `rules` or a
`default_rules` entry still contributes no referenced identifiers. -/
theorem C9_witness :
    (JValue.arr [JValue.obj [(JKey.kstr "rules", JValue.arr [JValue.obj [(JKey.kstr "rule_id", JValue.str "R1")]])],
        JValue.obj [(JKey.kstr "default_rules", JValue.arr [JValue.str "R2"])]]).isObj = false ∧
      extract_referenced_rule_ids
        (JValue.arr [JValue.obj [(JKey.kstr "rules", JValue.arr [JValue.obj [(JKey.kstr "rule_id", JValue.str "R1")]])],
          JValue.obj [(JKey.kstr "default_rules", JValue.arr [JValue.str "R2"])]]) = [] :=
  ⟨by decide,
    C9_nonobject_extracts_nothing
      (JValue.arr [JValue.obj [(JKey.kstr "rules", JValue.arr [JValue.obj [(JKey.kstr "rule_id", JValue.str "R1")]])],
        JValue.obj [(JKey.kstr "default_rules", JValue.arr [JValue.str "R2"])]])
      (by decide)⟩

/-! ## C2: the sort over a compiled validator's error paths

For a string-keyed instance, any two violation paths a compiled
validator can report are comparable, so Python's sort cannot raise; for
a mixed-key YAML mapping it can, and does. -/

lemma strKeyed_obj_mem :
    ∀ {kvs : List (JKey × JValue)}, strKeyed (JValue.obj kvs) = true →
      ∀ {k : JKey} {c : JValue}, (k, c) ∈ kvs →
        (∃ s, k = JKey.kstr s) ∧ strKeyed c = true := by
  intro kvs
  induction kvs with
  | nil => intro _ k c hmem; cases hmem
  | cons kv rest ih =>
    intro hsk k c hmem
    rcases kv with ⟨k0, c0⟩
    cases k0 with
    | kstr s0 =>
      rw [strKeyed, strKeyedKVs, Bool.and_eq_true] at hsk
      rcases hsk with ⟨hc0, hrest⟩
      rcases List.mem_cons.mp hmem with heq | hmem'
      · rcases Prod.mk.injEq .. ▸ heq with ⟨rfl, rfl⟩
        exact ⟨⟨s0, rfl⟩, hc0⟩
      · exact ih (by rw [strKeyed]; exact hrest) hmem'
    | kint i => simp [strKeyed, strKeyedKVs] at hsk
    | kbool b => simp [strKeyed, strKeyedKVs] at hsk
    | knull => simp [strKeyed, strKeyedKVs] at hsk

lemma strKeyed_arr_mem :
    ∀ {items : List JValue}, strKeyed (JValue.arr items) = true →
      ∀ {c : JValue}, c ∈ items → strKeyed c = true := by
  intro items
  induction items with
  | nil => intro _ c hmem; cases hmem
  | cons v rest ih =>
    intro hsk c hmem
    rw [strKeyed, strKeyedList, Bool.and_eq_true] at hsk
    rcases List.mem_cons.mp hmem with rfl | hmem'
    · exact hsk.1
    · exact ih (by rw [strKeyed]; exact hsk.2) hmem'

lemma childAt_compat {v : JValue} {a b : PathToken} {ca cb : JValue}
    (hsk : strKeyed v = true)
    (ha : childAt v a = some ca) (hb : childAt v b = some cb) :
    (pyTokenLt a b).isSome ∧ (pyTokenEq a b = true → ca = cb) ∧
      strKeyed ca = true ∧ strKeyed cb = true := by
  cases v with
  | obj kvs =>
    rw [childAt] at ha hb
    rcases hfa : kvs.find? (fun kv => pyTokenEq (tokenOfKey kv.1) a)
      with _ | kva <;> rw [hfa] at ha
    · exact Option.noConfusion ha
    rcases hfb : kvs.find? (fun kv => pyTokenEq (tokenOfKey kv.1) b)
      with _ | kvb <;> rw [hfb] at hb
    · exact Option.noConfusion hb
    have hca : kva.2 = ca := Option.some.inj ha
    have hcb : kvb.2 = cb := Option.some.inj hb
    have hpa := List.find?_some hfa
    have hpb := List.find?_some hfb
    obtain ⟨⟨sa, hka⟩, hska⟩ :=
      strKeyed_obj_mem hsk (List.mem_of_find?_eq_some hfa)
    obtain ⟨⟨sb, hkb⟩, hskb⟩ :=
      strKeyed_obj_mem hsk (List.mem_of_find?_eq_some hfb)
    rw [hka] at hpa
    rw [hkb] at hpb
    cases a <;> simp only [tokenOfKey, pyTokenEq, tokNum] at hpa
    case int _ => exact Bool.noConfusion hpa
    case bool _ => exact Bool.noConfusion hpa
    case null => exact Bool.noConfusion hpa
    case str a0 =>
    cases b <;> simp only [tokenOfKey, pyTokenEq, tokNum] at hpb
    case int _ => exact Bool.noConfusion hpb
    case bool _ => exact Bool.noConfusion hpb
    case null => exact Bool.noConfusion hpb
    case str b0 =>
    refine ⟨rfl, fun heq => ?_, hca ▸ hska, hcb ▸ hskb⟩
    replace heq : a0 = b0 := by simpa [pyTokenEq] using heq
    subst heq
    have h2 : some kva = some kvb := hfa.symm.trans hfb
    rw [← hca, ← hcb, Option.some.inj h2]
  | arr items =>
    cases a with
    | str s => simp [childAt] at ha
    | bool x => simp [childAt] at ha
    | null => simp [childAt] at ha
    | int i =>
      cases b with
      | str s => simp [childAt] at hb
      | bool x => simp [childAt] at hb
      | null => simp [childAt] at hb
      | int j =>
        rw [childAt] at ha hb
        split at ha
        · exact Option.noConfusion ha
        split at hb
        · exact Option.noConfusion hb
        refine ⟨rfl, fun heq => ?_, strKeyed_arr_mem hsk (List.get?_mem ha),
          strKeyed_arr_mem hsk (List.get?_mem hb)⟩
        replace heq : i = j := by simpa [pyTokenEq, tokNum] using heq
        rw [heq] at ha
        rw [ha] at hb
        exact Option.some.inj hb
  | str s => simp [childAt] at ha
  | int n => simp [childAt] at ha
  | bool x => simp [childAt] at ha
  | null => simp [childAt] at ha

lemma pyListLt_isSome : ∀ {p : List PathToken} (v : JValue) {q : List PathToken},
    strKeyed v = true → validPath v p = true → validPath v q = true →
      (pyListLt p q).isSome := by
  intro p
  induction p with
  | nil => intro v q _ _ _; cases q <;> simp [pyListLt]
  | cons a as ih =>
    intro v q hsk hp hq
    cases q with
    | nil => simp [pyListLt]
    | cons b bs =>
      rw [validPath] at hp hq
      rcases hca : childAt v a with _ | ca <;> rw [hca] at hp
      · exact absurd hp (by simp)
      rcases hcb : childAt v b with _ | cb <;> rw [hcb] at hq
      · exact absurd hq (by simp)
      obtain ⟨hlt, heq, hska, hskb⟩ := childAt_compat hsk hca hcb
      rw [pyListLt]
      by_cases h : pyTokenEq a b = true
      · rw [if_pos h]
        exact ih ca hska hp (by rw [heq h] at hp ⊢; exact hq)
      · rw [if_neg h]
        exact hlt

lemma insertP_total {lt : α → α → Option Bool} {a : α} :
    ∀ {l : List α}, (∀ b ∈ l, (lt a b).isSome) →
      ∃ l', insertP lt a l = some l' ∧ ∀ x ∈ l', x = a ∨ x ∈ l := by
  intro l
  induction l with
  | nil => exact fun _ => ⟨[a], rfl, by simp⟩
  | cons b bs ih =>
    intro h
    have hb : (lt a b).isSome := h b (by simp)
    rcases hab : lt a b with _ | tb
    · rw [hab] at hb; simp at hb
    rcases tb with _ | _
    · obtain ⟨l'', hl'', hmem⟩ := ih (fun x hx => h x (by simp [hx]))
      refine ⟨b :: l'', ?_, ?_⟩
      · rw [insertP, hab, hl'']
      · intro x hx
        rcases List.mem_cons.mp hx with rfl | hx
        · exact Or.inr (by simp)
        · rcases hmem x hx with rfl | hx'
          · exact Or.inl rfl
          · exact Or.inr (by simp [hx'])
    · exact ⟨a :: b :: bs, by rw [insertP, hab], by
        intro x hx
        rcases List.mem_cons.mp hx with rfl | hx
        · exact Or.inl rfl
        · exact Or.inr hx⟩

lemma sortAux_total {lt : α → α → Option Bool} {S : List α}
    (hS : ∀ a ∈ S, ∀ b ∈ S, (lt a b).isSome) :
    ∀ {l acc : List α}, (∀ x ∈ acc, x ∈ S) → (∀ x ∈ l, x ∈ S) →
      (sortAux lt acc l).isSome := by
  intro l
  induction l with
  | nil => intro acc _ _; simp [sortAux]
  | cons a rest ih =>
    intro acc hacc hl
    have ha : a ∈ S := hl a (by simp)
    obtain ⟨acc', hacc', hmem⟩ :=
      insertP_total (a := a) (fun b hb => hS a ha b (hacc b hb))
    rw [sortAux, hacc']
    exact ih
      (fun x hx => (hmem x hx).elim (fun h => h ▸ ha) (fun h => hacc x h))
      (fun x hx => hl x (by simp [hx]))

lemma pySorted_total {lt : α → α → Option Bool} {l : List α}
    (h : ∀ a ∈ l, ∀ b ∈ l, (lt a b).isSome) : (pySorted lt l).isSome :=
  sortAux_total h (by simp) (fun x hx => hx)

lemma pySorted_errs_total {V : JValue → Option (List SchemaError)}
    {v : JValue} {errs : List SchemaError} (hv : V v = some errs)
    (hV : ∀ u es e, V u = some es → e ∈ es → validPath u e.path = true)
    (hsk : strKeyed v = true) :
    (pySorted errLt errs).isSome :=
  pySorted_total (fun e1 h1 e2 h2 =>
    pyListLt_isSome v hsk (hV v errs e1 hv h1) (hV v errs e2 hv h2))

lemma validateListItems_total {V : JValue → Option (List SchemaError)}
    (hVtot : ∀ v, (V v).isSome)
    (hV : ∀ u es e, V u = some es → e ∈ es → validPath u e.path = true)
    (file : String) :
    ∀ (items : List JValue), (∀ it ∈ items, strKeyed it = true) →
      ∀ (index : Nat), (validateListItems V file index items).isSome := by
  intro items
  induction items with
  | nil => intro _ index; simp [validateListItems]
  | cons item rest ih =>
    intro hsk index
    obtain ⟨r, hr⟩ := Option.isSome_iff_exists.mp
      (ih (fun it hit => hsk it (by simp [hit])) (index + 1))
    cases item with
    | obj kvs =>
      obtain ⟨errs, herrs⟩ := Option.isSome_iff_exists.mp
        (hVtot (JValue.obj kvs))
      obtain ⟨s, hs⟩ := Option.isSome_iff_exists.mp
        (pySorted_errs_total herrs hV (hsk _ (by simp)))
      simp [validateListItems, herrs, hs, hr]
    | arr l => simp [validateListItems, hr]
    | str s => simp [validateListItems, hr]
    | int n => simp [validateListItems, hr]
    | bool b => simp [validateListItems, hr]
    | null => simp [validateListItems, hr]

lemma validate_document_total {V : JValue → Option (List SchemaError)}
    (hVtot : ∀ v, (V v).isSome)
    (hV : ∀ u es e, V u = some es → e ∈ es → validPath u e.path = true)
    (payload : JValue) (file : String) (hsk : strKeyed payload = true) :
    (validate_document V payload file).isSome := by
  cases payload with
  | obj kvs =>
    obtain ⟨errs, herrs⟩ := Option.isSome_iff_exists.mp
      (hVtot (JValue.obj kvs))
    obtain ⟨s, hs⟩ := Option.isSome_iff_exists.mp
      (pySorted_errs_total herrs hV hsk)
    simp [validate_document, herrs, hs]
  | arr items =>
    exact validateListItems_total hVtot hV file items
      (fun it hit => strKeyed_arr_mem hsk hit) 0
  | str s => rfl
  | int n => rfl
  | bool b => rfl
  | null => rfl

/-- C2 (amended): for every compiled schema validator that returns its
violations without raising and reports them at real structural paths of
the instance, and every payload whose mappings are string-keyed (as
every JSON document is), `validate_document` never raises: the outcome
is always a list of error strings, even when the violation paths mix
string keys and integer indices at different depths. -/
theorem C2_adapter_never_raises (V : JValue → Option (List SchemaError))
    (hVtot : ∀ v, (V v).isSome)
    (hV : ∀ v errs e, V v = some errs → e ∈ errs → validPath v e.path = true)
    (payload : JValue) (file : String) (hsk : strKeyed payload = true) :
    (validate_document V payload file).isSome :=
  validate_document_total hVtot hV payload file hsk

/-- A YAML mapping keyed by the int 1 and the string "a" — loadable by
`yaml.safe_load` from `{1: null, a: null}`. -/
def payloadMixedKeys : JValue :=
  .obj [(JKey.kint 1, JValue.null), (JKey.kstr "a", JValue.null)]

/-- A validator reporting a violation at the int-keyed member and one at
the str-keyed member, wherever those are real locations: exactly what an
`additionalProperties` subschema does on `payloadMixedKeys`. -/
def mixedKeyValidator (v : JValue) : Option (List SchemaError) :=
  some ((if validPath v [PathToken.int 1] = true then
      [⟨[PathToken.int 1], "int-keyed member is not valid"⟩] else [])
    ++ (if validPath v [PathToken.str "a"] = true then
      [⟨[PathToken.str "a"], "str-keyed member is not valid"⟩] else []))

/-- C2 counterexample: `mixedKeyValidator` never raises on its own and
reports only real structural paths — the compiled-validator contract —
yet on the mixed-key YAML mapping the adapter raises (`none`): Python's
`sorted` compares the int path token against the str one. -/
theorem C2_counterexample :
    (∀ v, (mixedKeyValidator v).isSome) ∧
      (∀ v errs e, mixedKeyValidator v = some errs → e ∈ errs →
        validPath v e.path = true) ∧
      validate_document mixedKeyValidator payloadMixedKeys "F" = none := by
  refine ⟨fun v => rfl, ?_, by decide⟩
  intro v errs e hv he
  rw [mixedKeyValidator] at hv
  cases Option.some.inj hv
  rcases List.mem_append.mp he with h1 | h2
  · by_cases hc : validPath v [PathToken.int 1] = true
    · rw [if_pos hc] at h1
      rcases List.mem_singleton.mp h1 with rfl
      exact hc
    · rw [if_neg hc] at h1
      exact absurd h1 (List.not_mem_nil e)
  · by_cases hc : validPath v [PathToken.str "a"] = true
    · rw [if_pos hc] at h2
      rcases List.mem_singleton.mp h2 with rfl
      exact hc
    · rw [if_neg hc] at h2
      exact absurd h2 (List.not_mem_nil e)

/-- A validator reporting three violations whose paths mix a string key,
a deeper integer index, and the root, at any instance where those are
real locations. -/
def mixedPathValidator (v : JValue) : Option (List SchemaError) :=
  some ((if validPath v [PathToken.str "a", PathToken.int 0] = true then
    [⟨[PathToken.str "a", PathToken.int 0], "bad item"⟩] else [])
  ++ ((if validPath v [PathToken.str "a"] = true then
    [⟨[PathToken.str "a"], "bad list"⟩] else [])
  ++ [⟨[], "bad root"⟩]))

lemma mixedPathValidator_wf :
    ∀ v errs e, mixedPathValidator v = some errs → e ∈ errs →
      validPath v e.path = true := by
  intro v errs e hv h
  rw [mixedPathValidator] at hv
  cases Option.some.inj hv
  rcases List.mem_append.mp h with h1 | h2
  · by_cases hc : validPath v [PathToken.str "a", PathToken.int 0] = true
    · rw [if_pos hc] at h1
      rcases List.mem_singleton.mp h1 with rfl
      exact hc
    · rw [if_neg hc] at h1
      exact absurd h1 (List.not_mem_nil e)
  · rcases List.mem_append.mp h2 with h3 | h4
    · by_cases hc : validPath v [PathToken.str "a"] = true
      · rw [if_pos hc] at h3
        rcases List.mem_singleton.mp h3 with rfl
        exact hc
      · rw [if_neg hc] at h3
        exact absurd h3 (List.not_mem_nil e)
    · rcases List.mem_singleton.mp h4 with rfl
      rfl

/-- C2 witness: the adapter succeeds on a string-keyed object payload
for which the mixed-path validator reports violations at the root, at a
string key and at an integer index below it. -/
theorem C2_witness :
    (∀ v, (mixedPathValidator v).isSome) ∧
      (∀ v errs e, mixedPathValidator v = some errs → e ∈ errs →
        validPath v e.path = true) ∧
      strKeyed (JValue.obj [(JKey.kstr "a", JValue.arr [JValue.str "x"])]) = true ∧
      (validate_document mixedPathValidator
        (JValue.obj [(JKey.kstr "a", JValue.arr [JValue.str "x"])]) "F").isSome :=
  ⟨fun v => rfl, mixedPathValidator_wf, by decide,
    C2_adapter_never_raises mixedPathValidator (fun v => rfl)
      mixedPathValidator_wf
      (JValue.obj [(JKey.kstr "a", JValue.arr [JValue.str "x"])]) "F" (by decide)⟩

/-! ## C5: file discovery -/

lemma mem_insertLe {le : α → α → Bool} {a x : α} :
    ∀ {l : List α}, x ∈ insertLe le a l ↔ x = a ∨ x ∈ l := by
  intro l
  induction l with
  | nil => simp [insertLe]
  | cons b bs ih =>
    rw [insertLe]
    by_cases h : le a b = true
    · simp [h]
    · simp only [if_neg h, List.mem_cons, ih]
      tauto

lemma mem_sortLe {le : α → α → Bool} {x : α} :
    ∀ {l : List α}, x ∈ sortLe le l ↔ x ∈ l := by
  intro l
  induction l with
  | nil => simp [sortLe]
  | cons a as ih => rw [sortLe, mem_insertLe, ih]; simp

lemma pairwise_insertLe {le : α → α → Bool}
    (total : ∀ a b, le a b = true ∨ le b a = true)
    (trans : ∀ a b c, le a b = true → le b c = true → le a c = true)
    {a : α} : ∀ {l : List α}, l.Pairwise (fun x y => le x y = true) →
      (insertLe le a l).Pairwise (fun x y => le x y = true) := by
  intro l
  induction l with
  | nil => intro _; simp [insertLe]
  | cons b bs ih =>
    intro h
    rcases List.pairwise_cons.mp h with ⟨hb, hbs⟩
    rw [insertLe]
    by_cases hab : le a b = true
    · rw [if_pos hab]
      refine List.pairwise_cons.mpr ⟨?_, h⟩
      intro x hx
      rcases List.mem_cons.mp hx with rfl | hx
      · exact hab
      · exact trans a b x hab (hb x hx)
    · rw [if_neg hab]
      refine List.pairwise_cons.mpr ⟨?_, ih hbs⟩
      intro x hx
      rcases mem_insertLe.mp hx with rfl | hx
      · exact (total x b).resolve_left hab
      · exact hb x hx

lemma sortLe_pairwise {le : α → α → Bool}
    (total : ∀ a b, le a b = true ∨ le b a = true)
    (trans : ∀ a b c, le a b = true → le b c = true → le a c = true) :
    ∀ l : List α, (sortLe le l).Pairwise (fun x y => le x y = true) := by
  intro l
  induction l with
  | nil => simp [sortLe]
  | cons a as ih => exact pairwise_insertLe total trans ih

lemma charListLt_asymm :
    ∀ as bs, charListLt as bs = true → charListLt bs as = false := by
  intro as
  induction as with
  | nil => intro bs h; cases bs <;> simp_all [charListLt]
  | cons a as ih =>
    intro bs h
    cases bs with
    | nil => simp [charListLt] at h
    | cons b bs' =>
      rw [charListLt] at h ⊢
      by_cases hab : a.toNat = b.toNat
      · rw [if_pos hab] at h
        rw [if_pos hab.symm]
        exact ih bs' h
      · rw [if_neg hab] at h
        rw [if_neg (fun hba => hab hba.symm)]
        simp only [decide_eq_true_eq] at h
        simp only [decide_eq_false_iff_not]
        omega

lemma charListLt_false_trans :
    ∀ xs ys zs, charListLt xs ys = false → charListLt ys zs = false →
      charListLt xs zs = false := by
  intro xs
  induction xs with
  | nil =>
    intro ys zs h1 h2
    cases ys with
    | nil => exact h2
    | cons y ys' => simp [charListLt] at h1
  | cons x xs' ih =>
    intro ys zs h1 h2
    cases zs with
    | nil => rfl
    | cons z zs' =>
      cases ys with
      | nil => simp [charListLt] at h2
      | cons y ys' =>
        rw [charListLt] at h1 h2 ⊢
        by_cases hxy : x.toNat = y.toNat
        · rw [if_pos hxy] at h1
          by_cases hyz : y.toNat = z.toNat
          · rw [if_pos hyz] at h2
            rw [if_pos (hxy.trans hyz)]
            exact ih ys' zs' h1 h2
          · rw [if_neg hyz] at h2
            simp only [decide_eq_false_iff_not] at h2
            rw [if_neg (by omega)]
            simp only [decide_eq_false_iff_not]
            omega
        · rw [if_neg hxy] at h1
          simp only [decide_eq_false_iff_not] at h1
          by_cases hyz : y.toNat = z.toNat
          · rw [if_neg (by omega)]
            simp only [decide_eq_false_iff_not]
            omega
          · rw [if_neg hyz] at h2
            simp only [decide_eq_false_iff_not] at h2
            rw [if_neg (by omega)]
            simp only [decide_eq_false_iff_not]
            omega

lemma strLeB_total : ∀ a b : String, strLeB a b = true ∨ strLeB b a = true := by
  intro a b
  rw [strLeB, strLeB, strLtB, strLtB]
  by_cases h : charListLt b.data a.data = true
  · right
    rw [charListLt_asymm _ _ h]
    rfl
  · left
    rw [Bool.not_eq_true] at h
    rw [h]
    rfl

lemma strLeB_trans : ∀ a b c : String,
    strLeB a b = true → strLeB b c = true → strLeB a c = true := by
  intro a b c h1 h2
  rw [strLeB, strLtB, Bool.not_eq_true'] at h1 h2 ⊢
  exact charListLt_false_trans c.data b.data a.data h2 h1

/-- The sorted matching files one existing search path contributes
(nothing for a missing path). -/
def baseFiles (fs : FileSystem) (base : String) : List String :=
  if pathExists fs base then
    (entriesUnder fs base).filter (fun p => isFile fs p && hasSupportedExt p)
  else []

lemma find_files_foldl (fs : FileSystem) :
    ∀ (paths : List String) (acc : List String),
      paths.foldl (fun files base =>
        if pathExists fs base then
          files ++ (entriesUnder fs base).filter
            (fun p => isFile fs p && hasSupportedExt p)
        else files) acc
      = acc ++ (paths.map (baseFiles fs)).flatten := by
  intro paths
  induction paths with
  | nil => simp
  | cons base rest ih =>
    intro acc
    rw [List.foldl_cons, ih]
    have hstep : (if pathExists fs base then
        acc ++ (entriesUnder fs base).filter
          (fun p => isFile fs p && hasSupportedExt p)
      else acc) = acc ++ baseFiles fs base := by
      rw [baseFiles]
      by_cases h : pathExists fs base
      · rw [if_pos h, if_pos h]
      · rw [if_neg h, if_neg h, List.append_nil]
    rw [hstep, List.map_cons, List.flatten_cons, List.append_assoc]

lemma find_files_eq_flatten (fs : FileSystem) (paths : List String) :
    find_files fs paths = (paths.map (baseFiles fs)).flatten := by
  rw [find_files, find_files_foldl]
  rfl

lemma mem_entriesUnder {fs : FileSystem} {base p : String} :
    p ∈ entriesUnder fs base ↔
      p ∈ fs.dirs ++ fs.files ∧ isUnder base p = true := by
  rw [entriesUnder, mem_sortLe, List.mem_filter]

lemma mem_baseFiles {fs : FileSystem} {base p : String} :
    p ∈ baseFiles fs base ↔
      pathExists fs base = true ∧ isUnder base p = true ∧
        isFile fs p = true ∧ hasSupportedExt p = true := by
  rw [baseFiles]
  by_cases h : pathExists fs base
  · rw [if_pos h, List.mem_filter, mem_entriesUnder, Bool.and_eq_true]
    constructor
    · rintro ⟨⟨_, hu⟩, hf, he⟩
      exact ⟨h, hu, hf, he⟩
    · rintro ⟨_, hu, hf, he⟩
      refine ⟨⟨?_, hu⟩, hf, he⟩
      exact List.mem_append.mpr (Or.inr (List.mem_of_elem_eq_true hf))
  · rw [if_neg h]
    simp only [List.not_mem_nil, false_iff]
    intro hc
    exact h hc.1

/-- C5 counterexample: with the search paths given out of lexicographic
order, the sequence `find_files` returns is not lexicographically
ordered as a whole (the second path's file sorts before the first's). -/
theorem C5_counterexample :
    ¬ (find_files ⟨["r/a", "r/b"], ["r/a/x.json", "r/b/x.json"]⟩
        ["r/b", "r/a"]).Pairwise (fun a b => strLeB a b = true) := by
  decide

/-- C5 (amended): `find_files` returns exactly the regular files with a
case-insensitively supported extension lying under an existing search
path, as the concatenation, in search-path order, of each path's
contribution, and each contribution is lexicographically sorted — so the
whole sequence is sorted only when the search paths' contributions are
themselves in order. -/
theorem C5_find_files (fs : FileSystem) (paths : List String) :
    (∀ p, p ∈ find_files fs paths ↔ ∃ base ∈ paths,
        pathExists fs base = true ∧ isUnder base p = true ∧
          isFile fs p = true ∧ hasSupportedExt p = true) ∧
      find_files fs paths = (paths.map (baseFiles fs)).flatten ∧
      ∀ base, (baseFiles fs base).Pairwise (fun a b => strLeB a b = true) := by
  refine ⟨fun p => ?_, find_files_eq_flatten fs paths, fun base => ?_⟩
  · rw [find_files_eq_flatten]
    simp only [List.mem_flatten, List.mem_map]
    constructor
    · rintro ⟨l, ⟨base, hbase, rfl⟩, hp⟩
      exact ⟨base, hbase, mem_baseFiles.mp hp⟩
    · rintro ⟨base, hbase, hprops⟩
      exact ⟨baseFiles fs base, ⟨base, hbase, rfl⟩, mem_baseFiles.mpr hprops⟩
  · rw [baseFiles]
    by_cases h : pathExists fs base
    · rw [if_pos h]
      exact List.Pairwise.filter _
        (sortLe_pairwise strLeB_total strLeB_trans _)
    · rw [if_neg h]
      exact List.Pairwise.nil

/-! ## Run-level lemmas: error decomposition and totality -/

lemma withVerboseLine_errors (flags : Flags) (line : String) (st : RunState) :
    (withVerboseLine flags line st).errors = st.errors := by
  rw [withVerboseLine]
  split <;> rfl

lemma recordDoc_errors (b : Bool) (payload : JValue) (st : RunState) :
    (recordDoc b payload st).errors = st.errors := by
  rw [recordDoc]
  cases b <;> rfl

lemma processFiles_frame {w : World} {flags : Flags} {root : String}
    {isRule : Bool} {V : JValue → Option (List SchemaError)} :
    ∀ {fl : List String} {st st' : RunState},
      processFiles w flags root isRule V st fl = some st' →
      ∃ δ, filesErrors w V fl = some δ ∧ st'.errors = st.errors ++ δ := by
  intro fl
  induction fl with
  | nil =>
    intro st st' h
    rw [processFiles] at h
    cases h
    exact ⟨[], rfl, (List.append_nil _).symm⟩
  | cons f rest ih =>
    intro st st' h
    rw [processFiles] at h
    split at h
    next exc hld =>
      obtain ⟨δr, hδr, herr⟩ := ih h
      refine ⟨(f ++ ": unable to parse document: " ++ exc) :: δr, ?_, ?_⟩
      · simp only [filesErrors, hld, hδr, Option.map_some']
      · rw [herr, addError, withVerboseLine_errors]
        simp
    next payload hld =>
      split at h
      next hvd => exact Option.noConfusion h
      next docErrs hvd =>
        obtain ⟨δr, hδr, herr⟩ := ih h
        refine ⟨docErrs ++ δr, ?_, ?_⟩
        · simp only [filesErrors, hld, hvd, hδr, Option.map_some']
        · rw [herr, recordDoc_errors, addError, withVerboseLine_errors]
          simp

lemma processTarget_frame {w : World} {flags : Flags} {root : String}
    {st st' : RunState} {t : ValidationTarget}
    (h : processTarget w flags root st t = some st') :
    ∃ δ, targetErrors w t = some δ ∧ st'.errors = st.errors ++ δ := by
  rw [processTarget] at h
  by_cases hp : pathExists w.fs t.schema_path = false
  · rw [if_pos hp] at h
    cases h
    exact ⟨["Missing schema file: " ++ t.schema_path],
      by rw [targetErrors, if_pos hp], rfl⟩
  · rw [if_neg hp] at h
    rcases hlj : w.loadJson t.schema_path with exc | sp <;> rw [hlj] at h
    · cases h
      exact ⟨["Unable to parse schema " ++ t.schema_path ++ ": " ++ exc],
        by rw [targetErrors, if_neg hp, hlj], rfl⟩
    · obtain ⟨δ, hδ, herr⟩ := processFiles_frame h
      refine ⟨δ, ?_, ?_⟩
      · rw [targetErrors, if_neg hp, hlj]
        exact hδ
      · rw [herr, withVerboseLine_errors]

lemma foldTargets_frame {w : World} {flags : Flags} {root : String} :
    ∀ {ts : List ValidationTarget} {st st' : RunState},
      foldTargets w flags root st ts = some st' →
      ∃ δs, optMapList (targetErrors w) ts = some δs ∧
        st'.errors = st.errors ++ δs.flatten := by
  intro ts
  induction ts with
  | nil =>
    intro st st' h
    rw [foldTargets] at h
    cases h
    exact ⟨[], rfl, by simp [optMapList]⟩
  | cons t rest ih =>
    intro st st' h
    rw [foldTargets] at h
    rcases hpt : processTarget w flags root st t with _ | st1 <;> rw [hpt] at h
    · exact absurd h (by simp)
    · obtain ⟨δ, hδ, herr1⟩ := processTarget_frame hpt
      obtain ⟨δs, hδs, herr2⟩ := ih h
      refine ⟨δ :: δs, ?_, ?_⟩
      · rw [optMapList, hδ, hδs]
        rfl
      · rw [herr2, herr1, List.flatten_cons, List.append_assoc]

lemma run_errors_decompose {w : World} {flags : Flags} {root : String}
    {r : RunResult} (h : run w flags root = some r) :
    ∃ δs, optMapList (targetErrors w) (targets root) = some δs ∧
      r.errors = δs.flatten
        ++ validate_ge_suite_shape (suitePath root) (suiteInput w root) := by
  rw [run] at h
  rcases hft : foldTargets w flags root ⟨[], [], [], []⟩ (targets root)
    with _ | st <;> rw [hft] at h
  · exact absurd h (by simp)
  · cases h
    obtain ⟨δs, hδs, herr⟩ := foldTargets_frame hft
    refine ⟨δs, hδs, ?_⟩
    show st.errors ++ _ = _
    rw [herr]
    rfl

lemma processFiles_total {w : World} {flags : Flags} {root : String}
    {isRule : Bool} {V : JValue → Option (List SchemaError)}
    (hVtot : ∀ v, (V v).isSome)
    (hV : ∀ u es e, V u = some es → e ∈ es → validPath u e.path = true)
    (hdocs : WorldDocsStrKeyed w) :
    ∀ {fl : List String} {st : RunState},
      (processFiles w flags root isRule V st fl).isSome := by
  intro fl
  induction fl with
  | nil => intro st; rw [processFiles]; rfl
  | cons f rest ih =>
    intro st
    rw [processFiles]
    split
    · exact ih
    next payload hld =>
      obtain ⟨d, hd⟩ := Option.isSome_iff_exists.mp
        (validate_document_total hVtot hV payload f (hdocs f payload hld))
      rw [hd]
      exact ih

lemma processTarget_total (w : World) (flags : Flags) (root : String)
    (hwf : WorldWF w) (hnr : WorldNoRaise w) (hdocs : WorldDocsStrKeyed w)
    (st : RunState) (t : ValidationTarget) :
    (processTarget w flags root st t).isSome := by
  rw [processTarget]
  by_cases hp : pathExists w.fs t.schema_path = false
  · rw [if_pos hp]; rfl
  · rw [if_neg hp]
    rcases hlj : w.loadJson t.schema_path with exc | sp
    · rfl
    · exact processFiles_total (fun v => hnr sp v)
        (fun u es e hes he => hwf sp u es e hes he) hdocs

lemma foldTargets_total (w : World) (flags : Flags) (root : String)
    (hwf : WorldWF w) (hnr : WorldNoRaise w) (hdocs : WorldDocsStrKeyed w) :
    ∀ (ts : List ValidationTarget) (st : RunState),
      (foldTargets w flags root st ts).isSome := by
  intro ts
  induction ts with
  | nil => intro st; rw [foldTargets]; rfl
  | cons t rest ih =>
    intro st
    rw [foldTargets]
    obtain ⟨st1, hst1⟩ := Option.isSome_iff_exists.mp
      (processTarget_total w flags root hwf hnr hdocs st t)
    rw [hst1]
    exact ih st1

lemma run_total (w : World) (flags : Flags) (root : String)
    (hwf : WorldWF w) (hnr : WorldNoRaise w) (hdocs : WorldDocsStrKeyed w) :
    (run w flags root).isSome := by
  rw [run]
  obtain ⟨st, hst⟩ := Option.isSome_iff_exists.mp
    (foldTargets_total w flags root hwf hnr hdocs (targets root) ⟨[], [], [], []⟩)
  rw [hst]
  rfl

/-! ## C1, C3, C4, C8: properties of the whole run -/

/-- C1: the run exits with code 1 exactly when the accumulated error
sequence is non-empty, or the warning sequence is non-empty under
`--strict-references`; in every other case it exits 0 and its last
printed line is the trailing confirmation. -/
theorem C1_exit_status (w : World) (flags : Flags) (root : String)
    (r : RunResult) (h : run w flags root = some r) :
    r.exitCode = (if r.errors ≠ [] then 1
      else if flags.strict_references = true ∧ r.warnings ≠ [] then 1 else 0) ∧
      (r.exitCode = 0 → r.output.getLast? = some "\nValidation passed.") := by
  rw [run] at h
  rcases hft : foldTargets w flags root ⟨[], [], [], []⟩ (targets root)
    with _ | st <;> rw [hft] at h
  · exact Option.noConfusion h
  · cases h
    refine ⟨rfl, fun h0 => ?_⟩
    simp only [assemble] at h0 ⊢
    rw [h0, if_pos rfl]
    exact List.getLast?_concat _

/-- C3 (amended): a target whose schema file is absent, or whose content
does not parse as JSON, contributes exactly one error and nothing else;
the run's error sequence is the concatenation of every target's own
contribution (so the other targets are fully processed) plus the suite
check, and the run completes — never aborts — provided the worlds's
compiled validators return their violations at real paths without
raising and every loaded document is string-keyed. -/
theorem C3_schema_failure_isolation (w : World) (flags : Flags)
    (root : String) (t : ValidationTarget) (hwf : WorldWF w)
    (hnr : WorldNoRaise w) (hdocs : WorldDocsStrKeyed w)
    (ht : t ∈ targets root) (hbad : badSchema w t) :
    targetErrors w t = some [schemaFailMsg w t] ∧
      ∃ r δs, run w flags root = some r ∧
        optMapList (targetErrors w) (targets root) = some δs ∧
        r.errors = δs.flatten
          ++ validate_ge_suite_shape (suitePath root) (suiteInput w root) := by
  constructor
  · rw [targetErrors, schemaFailMsg]
    by_cases hp : pathExists w.fs t.schema_path = false
    · rw [if_pos hp, if_pos hp]
    · rcases hbad with hbad | ⟨e, he⟩
      · exact absurd hbad hp
      · rw [if_neg hp, if_neg hp, he]
  · obtain ⟨r, hr⟩ := Option.isSome_iff_exists.mp
      (run_total w flags root hwf hnr hdocs)
    obtain ⟨δs, hδs, herr⟩ := run_errors_decompose hr
    exact ⟨r, δs, hr, hδs, herr⟩

/-- C4: the run's warning sequence is exactly one warning, with the
fixed text, per identifier in the sorted difference referenced minus
known; and the error sequence is what the targets and the suite check
alone produce, so the reference check never contributes errors. -/
theorem C4_reference_warnings (w : World) (flags : Flags) (root : String)
    (r : RunResult) (h : run w flags root = some r) :
    r.warnings = (sortLe strLeB (r.referenced.filter
        (fun id => r.known.contains id = false))).map
      (fun id =>
        "Referenced rule ID not found in rules/core or rules/extensions: " ++ id) ∧
      ∃ δs, optMapList (targetErrors w) (targets root) = some δs ∧
        r.errors = δs.flatten
          ++ validate_ge_suite_shape (suitePath root) (suiteInput w root) := by
  refine ⟨?_, run_errors_decompose h⟩
  rw [run] at h
  rcases hft : foldTargets w flags root ⟨[], [], [], []⟩ (targets root)
    with _ | st <;> rw [hft] at h
  · exact Option.noConfusion h
  · cases h
    rfl

/-- C8: the run is a deterministic function of the file tree, the
parsing and validation oracles, and the flags: two runs over the same
world agree on errors, warnings and exit code. -/
theorem C8_two_run_determinism (w : World) (flags : Flags) (root : String)
    (r1 r2 : RunResult) (h1 : run w flags root = some r1)
    (h2 : run w flags root = some r2) :
    r1.errors = r2.errors ∧ r1.warnings = r2.warnings ∧
      r1.exitCode = r2.exitCode := by
  rw [h1] at h2
  cases Option.some.inj h2
  exact ⟨rfl, rfl, rfl⟩

/-! ## Witness worlds -/

/-- A file tree with the three schema files, one dataset config, and no
rule documents. -/
def fsRef : FileSystem :=
  ⟨["r/rules/datasets"],
    ["r/schemas/rule-schema.json", "r/schemas/dataset-config-schema.json",
      "r/schemas/semantic-types-schema.json", "r/rules/datasets/d.yaml"]⟩

/-- A world whose only document is a dataset config referencing the
unknown rule id R9, with a schema validator reporting no violations. -/
def wRef : World :=
  { fs := fsRef
    loadDoc := fun _ => .ok (.obj [(JKey.kstr "rules",
        .arr [.obj [(JKey.kstr "rule_id", .str "R9")]])])
    loadJson := fun _ => .ok (.obj [])
    compile := fun _ _ => some [] }

lemma wRef_wf : WorldWF wRef := by
  intro s v errs e hes he
  cases Option.some.inj hes
  exact absurd he (List.not_mem_nil e)

/-- The value of the run over `wRef` without flags. -/
def runRefResult : RunResult :=
  { errors := []
    warnings := ["Referenced rule ID not found in rules/core or rules/extensions: R9"]
    known := []
    referenced := ["R9"]
    exitCode := 0
    output := ["Data Quality asset validation summary", "- Known rule IDs: 0",
      "- Referenced rule IDs: 1", "- Errors: 0", "- Warnings: 1",
      "\nWarnings:",
      "- Referenced rule ID not found in rules/core or rules/extensions: R9",
      "\nValidation passed."] }

lemma run_wRef : run wRef ⟨false, false⟩ "r" = some runRefResult := by decide

/-- An empty world: no files at all, so every target's schema file is
missing. -/
def wEmpty : World :=
  { fs := ⟨[], []⟩
    loadDoc := fun _ => .ok .null
    loadJson := fun _ => .ok .null
    compile := fun _ _ => some [] }

lemma wEmpty_wf : WorldWF wEmpty := by
  intro s v errs e hes he
  cases Option.some.inj hes
  exact absurd he (List.not_mem_nil e)

lemma wEmpty_noraise : WorldNoRaise wEmpty :=
  fun _ _ => rfl

lemma wEmpty_docs : WorldDocsStrKeyed wEmpty := by
  intro f v h
  cases h
  decide

/-- The rule-definitions target of the run rooted at "r". -/
def targetC3 : ValidationTarget :=
  ⟨"rule definitions", "r/schemas/rule-schema.json",
    ["r/rules/core", "r/rules/extensions"]⟩

/-- C1 witness: a concrete clean run exits 0 and its last printed line
is the confirmation. -/
theorem C1_witness :
    runRefResult.exitCode = (if runRefResult.errors ≠ [] then 1
      else if (Flags.mk false false).strict_references = true
          ∧ runRefResult.warnings ≠ [] then 1 else 0) ∧
      (runRefResult.exitCode = 0 →
        runRefResult.output.getLast? = some "\nValidation passed.") :=
  C1_exit_status wRef ⟨false, false⟩ "r" runRefResult run_wRef

/-- C3 witness: in the empty world the rule-definitions target's schema
file is missing, the target contributes exactly one error, and the run
completes with the per-target decomposition. -/
theorem C3_witness :
    targetErrors wEmpty targetC3 = some [schemaFailMsg wEmpty targetC3] ∧
      ∃ r δs, run wEmpty ⟨false, false⟩ "r" = some r ∧
        optMapList (targetErrors wEmpty) (targets "r") = some δs ∧
        r.errors = δs.flatten
          ++ validate_ge_suite_shape (suitePath "r") (suiteInput wEmpty "r") :=
  C3_schema_failure_isolation wEmpty ⟨false, false⟩ "r" targetC3 wEmpty_wf
    wEmpty_noraise wEmpty_docs (by decide) (Or.inl (by decide))

/-- C4 witness: the concrete run over `wRef` has exactly the sorted
missing-reference warning for R9 and errors independent of it. -/
theorem C4_witness :
    runRefResult.warnings = (sortLe strLeB (runRefResult.referenced.filter
        (fun id => runRefResult.known.contains id = false))).map
      (fun id =>
        "Referenced rule ID not found in rules/core or rules/extensions: " ++ id) ∧
      ∃ δs, optMapList (targetErrors wRef) (targets "r") = some δs ∧
        runRefResult.errors = δs.flatten
          ++ validate_ge_suite_shape (suitePath "r") (suiteInput wRef "r") :=
  C4_reference_warnings wRef ⟨false, false⟩ "r" runRefResult run_wRef

/-- C8 witness: the two-run equality instantiated at the concrete run
over `wRef`. -/
theorem C8_witness :
    runRefResult.errors = runRefResult.errors ∧
      runRefResult.warnings = runRefResult.warnings ∧
      runRefResult.exitCode = runRefResult.exitCode :=
  C8_two_run_determinism wRef ⟨false, false⟩ "r" runRefResult runRefResult
    run_wRef run_wRef

/-- A file tree where the rule-schema file exists and one rule document
is discovered. -/
def fsBad : FileSystem :=
  ⟨["r/rules/core"], ["r/schemas/rule-schema.json", "r/rules/core/a.yaml"]⟩

/-- A world whose rule-schema file holds the JSON document `5`: it
parses as JSON, so the code compiles a validator from it, and that
validator raises on every instance — as `jsonschema` does when handed a
non-schema definition. -/
def wBad : World :=
  { fs := fsBad
    loadDoc := fun _ => .ok (.obj [])
    loadJson := fun _ => .ok (.int 5)
    compile := fun _ _ => none }

/-- C3 counterexample: a schema file whose content parses as JSON but is
not a valid schema definition (here the integer 5) is not skipped with
one error — the code only guards the JSON parse, so the compiled
validator raises at the first discovered document and the whole run
aborts instead of completing. -/
theorem C3_counterexample :
    pathExists wBad.fs "r/schemas/rule-schema.json" = true ∧
      wBad.loadJson "r/schemas/rule-schema.json" = Except.ok (JValue.int 5) ∧
      run wBad ⟨false, false⟩ "r" = none :=
  ⟨by decide, rfl, by decide⟩

end NexusData
